import Mathlib

/-!
Verification of the result-ingestion core of the docreader web relay:
the webhook payload normalizer (`handleN8nWebhook` in handlers.go), the
bounded result store (the `responses` slice with trim-on-append), and the
retrieval snapshot (`handleGetResults`).  All definitions are shallow
embeddings of the Go source; machine integers are modelled as Nat/Int,
Go's `time.Now()` readings as explicit Nat clock inputs, and the result
of `json.Unmarshal` into `map[string]interface{}` as an
`Option (List (String × JsonVal))` input (the decoder itself is Go
library code outside this repository; `none` models an Unmarshal error,
`some o` a successfully decoded object with `o` listing its entries).
-/

namespace DocReader

/-- The `ProcessingResponse` struct (models.go): one stored result record.
`timestamp` is the `time.Time` field, modelled as a nanosecond count. -/
structure ProcessingResponse where
  id : String
  text : String
  timestamp : Nat
  status : String
deriving DecidableEq, Repr

/-! ## Bounded result store

`handleN8nWebhook` appends under `responsesMutex`:
  `responses = append(responses, response)`
  `if len(responses) > maxResponses { responses = responses[len(responses)-maxResponses:] }`
`maxResponses` is a Go `int`, so it can be negative; the checked model
below keeps the capacity as `Int` and returns `none` where the Go slice
expression would panic (lower bound outside `[0, len]`; Go in fact allows
up to `cap ≥ len`, but for `0 ≤ N` the bound is already within `len`, so
the conservative check does not change the safety statement).  The
unchecked model specialises to a `Nat` capacity, the panic-free regime. -/

/-- One completed append with capacity `N : Nat` (the panic-free regime of
the Go code): push at the tail, then trim from the head down to `N`. -/
def appendResponse (N : Nat) (st : List ProcessingResponse)
    (r : ProcessingResponse) : List ProcessingResponse :=
  let l := st ++ [r]
  if l.length > N then l.drop (l.length - N) else l

/-- The same append with the capacity as a Go `int` (`Int`): the slice
expression `responses[len(responses)-maxResponses:]` panics unless its
lower bound is in range, modelled by returning `none`. -/
def appendResponseChecked (N : Int) (st : List ProcessingResponse)
    (r : ProcessingResponse) : Option (List ProcessingResponse) :=
  let l := st ++ [r]
  if (l.length : Int) > N then
    let low : Int := (l.length : Int) - N
    if 0 ≤ low ∧ low ≤ (l.length : Int) then some (l.drop low.toNat) else none
  else
    some l

/-- A whole run of appends starting from the empty store (capacity `Nat`). -/
def runAppends (N : Nat) (rs : List ProcessingResponse) : List ProcessingResponse :=
  rs.foldl (appendResponse N) []

/-- A whole run of checked appends from the empty store; `none` as soon
as one append panics. -/
def runAppendsChecked (N : Int) (rs : List ProcessingResponse) :
    Option (List ProcessingResponse) :=
  rs.foldlM (appendResponseChecked N) []

/-- `handleGetResults` copies the shared slice element by element
(`make` + `copy`) before releasing the lock; on immutable lists the
element-wise copy is rebuilt from the indexing function. -/
def snapshot (st : List ProcessingResponse) : List ProcessingResponse :=
  List.ofFn (fun i : Fin st.length => st.get i)

/-- Keep the last `N` elements: the normal form of the trim step. -/
def trimTo (N : Nat) (l : List ProcessingResponse) : List ProcessingResponse :=
  l.drop (l.length - N)

/-! ## Store operation traces (for the snapshot claims)

A trace interleaves appends (the sole writer path) with snapshot reads;
`runOps` returns the final store state together with the sequence that
each snapshot returned, in order. -/

inductive StoreOp where
  | app (r : ProcessingResponse)
  | snap

def runOps (N : Nat) :
    List ProcessingResponse → List StoreOp →
      List ProcessingResponse × List (List ProcessingResponse)
  | st, [] => (st, [])
  | st, StoreOp.app r :: ops => runOps N (appendResponse N st r) ops
  | st, StoreOp.snap :: ops =>
    let rest := runOps N st ops
    (rest.1, snapshot st :: rest.2)

def snapCount (ops : List StoreOp) : Nat :=
  ops.countP (fun op => match op with | StoreOp.snap => true | _ => false)

/-! ## Decimal printing (`fmt` verbs used by the source) -/

/-- Decimal digits of `n`, most significant first; fuel-structured so the
kernel can evaluate it (`fuel ≥ n + 1` always suffices). -/
def natDecAux : Nat → Nat → List Char
  | 0, _ => []
  | fuel + 1, n =>
    if n < 10 then [Nat.digitChar n]
    else natDecAux fuel (n / 10) ++ [Nat.digitChar (n % 10)]

/-- `%d` of a non-negative value. -/
def natDecimal (n : Nat) : String := String.mk (natDecAux (n + 1) n)

/-- Numeric value of a decimal digit character. -/
def digitVal (c : Char) : Nat := c.toNat - 48

/-- Reads decimal digits back; left inverse of `natDecAux`. -/
def decodeDigits (cs : List Char) : Nat :=
  cs.foldl (fun a c => a * 10 + digitVal c) 0

/-- `generateSimpleID` (handlers.go): `fmt.Sprintf("res_%d", time.Now().UnixNano())`,
with the nanosecond reading supplied as input. -/
def generateSimpleID (nowNano : Nat) : String := "res_" ++ natDecimal nowNano

/-- Two-digit zero-padded rendering of `m < 100`. -/
def twoDigits (m : Nat) : String :=
  (if m < 10 then "0" else "") ++ natDecimal m

/-- Round to the nearest integer, ties to even (the rounding `strconv`
applies when formatting with fixed precision). -/
def roundHalfEven (q : Rat) : Int :=
  let f := ⌊q⌋
  let r := q - (f : Rat)
  if r < (1 : Rat) / 2 then f
  else if (1 : Rat) / 2 < r then f + 1
  else if f % 2 = 0 then f else f + 1

/-- `%.2f`: fixed two-decimal rendering.  Go formats the binary float64
value; the model formats the decoded number as an exact rational, which
agrees on every value exactly representable in binary64. -/
def fmt2 (q : Rat) : String :=
  let n := roundHalfEven (q * 100)
  let a := n.natAbs
  (if q < 0 then "-" else "") ++ natDecimal (a / 100) ++ "." ++ twoDigits (a % 100)

/-! ## JSON payload model and re-marshalling -/

/-- The value space of a decoded `map[string]interface{}` entry: string,
float64, bool, nested object, array, or JSON null (`nil` interface). -/
inductive JsonVal where
  | str (s : String)
  | num (q : Rat)
  | bool (b : Bool)
  | obj (fields : List (String × JsonVal))
  | arr (elems : List JsonVal)
  | null

abbrev JObj := List (String × JsonVal)

/-- Go map indexing `o[k]`; decoded objects never carry duplicate keys, so
the first match is the match. -/
def mapGet (o : JObj) (k : String) : Option JsonVal :=
  (o.find? (fun kv => kv.1 == k)).map (fun kv => kv.2)

/-- The combined Go idiom `v, ok := o[k].(string); ok && v != ""`:
`some s` exactly when key `k` is present, is a string, and is non-empty. -/
def nonEmptyString (v : Option JsonVal) : Option String :=
  match v with
  | some (JsonVal.str s) => if s = "" then none else some s
  | _ => none

/-- JSON string escaping as `encoding/json` performs it (quotes, backslash,
control characters, and the HTML-sensitive `<`, `>`, `&`). -/
def escapeChar (c : Char) : String :=
  if c = '"' then "\\\""
  else if c = '\\' then "\\\\"
  else if c = '\n' then "\\n"
  else if c = '\r' then "\\r"
  else if c = '\t' then "\\t"
  else if c = '<' ∨ c = '>' ∨ c = '&' ∨ c.toNat < 32 then
    "\\u00" ++ String.mk [Nat.digitChar (c.toNat / 16), Nat.digitChar (c.toNat % 16)]
  else String.singleton c

def escapeString (s : String) : String := String.join (s.data.map escapeChar)

/-- Fractional digits of `rem / den`, up to `fuel` digits (float64 round
trips need at most 17 significant digits). -/
def fracDigits : Nat → Nat → Nat → String
  | 0, _, _ => ""
  | fuel + 1, rem, den =>
    if rem = 0 then ""
    else String.singleton (Nat.digitChar (rem * 10 / den)) ++
      fracDigits fuel (rem * 10 % den) den

/-- Decimal rendering of a decoded number for re-marshalling. -/
def ratMarshalNum (q : Rat) : String :=
  let a := q.num.natAbs
  let ip := a / q.den
  let rem := a % q.den
  (if q.num < 0 then "-" else "") ++ natDecimal ip ++
    (if rem = 0 then "" else "." ++ fracDigits 17 rem q.den)

/-- Insertion into a key-sorted list of (key, rendered entry) pairs. -/
def insertByKey (kv : String × String) :
    List (String × String) → List (String × String)
  | [] => [kv]
  | x :: xs => if kv.1 ≤ x.1 then kv :: x :: xs else x :: insertByKey kv xs

/-- `encoding/json` marshals map keys in sorted order. -/
def sortByKey : List (String × String) → List (String × String)
  | [] => []
  | x :: xs => insertByKey x (sortByKey xs)

mutual

/-- `json.Marshal` on a decoded value (its canonical JSON text form). -/
def marshal : JsonVal → String
  | JsonVal.str s => "\"" ++ escapeString s ++ "\""
  | JsonVal.num q => ratMarshalNum q
  | JsonVal.bool b => if b then "true" else "false"
  | JsonVal.null => "null"
  | JsonVal.obj fs =>
    "\x7b" ++ String.intercalate "," ((sortByKey (marshalFields fs)).map
      (fun kv => kv.2)) ++ "\x7d"
  | JsonVal.arr es => "[" ++ String.intercalate "," (marshalElems es) ++ "]"

/-- Each object entry as (key, `"key":value` text). -/
def marshalFields : List (String × JsonVal) → List (String × String)
  | [] => []
  | kv :: rest =>
    (kv.1, "\"" ++ escapeString kv.1 ++ "\":" ++ marshal kv.2) :: marshalFields rest

def marshalElems : List JsonVal → List String
  | [] => []
  | v :: rest => marshal v :: marshalElems rest

end

/-! ## The normalizer (`handleN8nWebhook` body, lines 86-159) -/

/-- One arm of the `switch value.(type)` building `parts` (lines 111-132).
The decoder only ever produces string/float64/bool/map/slice/nil values,
so the `case int` arm is unreachable; `nil` falls to the `default` arm,
whose `%v` prints `<nil>`.  `json.Marshal` cannot fail on a decoded
value, so the `err == nil` guards always hold. -/
def renderValue (key : String) (v : JsonVal) : Option String :=
  match v with
  | JsonVal.str s => if s = "" then none else some (key ++ ": " ++ s)
  | JsonVal.num q => some (key ++ ": " ++ fmt2 q)
  | JsonVal.bool b => some (key ++ ": " ++ (if b then "true" else "false"))
  | JsonVal.obj fs => some (key ++ ": " ++ marshal (JsonVal.obj fs))
  | JsonVal.arr es => some (key ++ ": " ++ marshal (JsonVal.arr es))
  | JsonVal.null => some (key ++ ": <nil>")

/-- The `excludeFields` map (lines 98-104). -/
def excludeFields : List String :=
  ["status", "webhookUrl", "executionMode", "timestamp", "id"]

/-- The `parts` accumulation loop (lines 106-133); iteration follows the
entry list of the decoded object. -/
def buildParts (o : JObj) : List String :=
  o.filterMap (fun kv =>
    if kv.1 ∈ excludeFields then none else renderValue kv.1 kv.2)

/-- `responseText` for a successfully decoded object (lines 91-138):
`text` first, then `message`, then the joined `parts`. -/
def responseTextOf (o : JObj) : String :=
  match nonEmptyString (mapGet o ("text")) with
  | some t => t
  | none =>
    match nonEmptyString (mapGet o ("message")) with
    | some m => m
    | none =>
      let parts := buildParts o
      if parts.length > 0 then String.intercalate "\n" parts else ""

/-- `responseText` over both decode outcomes: on Unmarshal failure the raw
body text is taken verbatim (line 144). -/
def normalizeText (body : String) (parsed : Option JObj) : String :=
  match parsed with
  | some o => responseTextOf o
  | none => body

/-- `status` (lines 88 and 140-142): the payload's non-empty string
`status` when decoded, else `"completed"`. -/
def normalizeStatus (parsed : Option JObj) : String :=
  match parsed with
  | some o =>
    match nonEmptyString (mapGet o ("status")) with
    | some s => s
    | none => "completed"
  | none => "completed"

/-- The empty-text fallback sentinel (line 150). -/
def placeholderText : String := "Данные обработаны, но текст результата пуст"

/-- Lines 149-152: substitute the placeholder when every branch left
`responseText` empty. -/
def finalText (body : String) (parsed : Option JObj) : String :=
  let t := normalizeText body parsed
  if t = "" then placeholderText else t

/-- The `ProcessingResponse` literal of lines 154-159.  `idNano` and
`tsNano` are the two separate `time.Now()` readings (inside
`generateSimpleID` and for the `Timestamp` field). -/
def mkRecord (body : String) (parsed : Option JObj) (idNano tsNano : Nat) :
    ProcessingResponse :=
  { id := generateSimpleID idNano
    text := finalText body parsed
    timestamp := tsNano
    status := normalizeStatus parsed }

/-- Spec-side restatement of §4.1's synthesized-text branch, written from
the spec's words for the refinement comparison with `buildParts`: one
line `"<key>: <value>"` per key outside the reserved exclusion set, with
the spec's value stringification (string verbatim, skipped if empty;
number in fixed 2-decimal form; boolean textual form; object/array
canonical JSON text; other values their default textual form). -/
def specStringify : JsonVal → Option String
  | JsonVal.str s => if s = "" then none else some s
  | JsonVal.num q => some (fmt2 q)
  | JsonVal.bool b => some (if b then "true" else "false")
  | JsonVal.obj fs => some (marshal (JsonVal.obj fs))
  | JsonVal.arr es => some (marshal (JsonVal.arr es))
  | JsonVal.null => some ("<nil>")

def specSynthesizedLines (o : JObj) : List String :=
  (o.filter (fun kv => decide (kv.1 ∉ excludeFields))).filterMap
    (fun kv => (specStringify kv.2).map (fun s => kv.1 ++ ": " ++ s))

/-! ## Configuration loader (`initEnvVariables`, config.go lines 45-54) -/

/-- `strconv.Atoi`: optional sign, decimal digits, rejecting the empty
string, stray characters, and 64-bit overflow. -/
def goAtoi (s : String) : Option Int :=
  match s.data with
  | [] => none
  | c :: rest =>
    let signed :=
      if c = '-' then (true, rest)
      else if c = '+' then (false, rest)
      else (false, c :: rest)
    if signed.2 = [] then none
    else if signed.2.all (fun d => d.isDigit) then
      let n : Nat := signed.2.foldl (fun a d => a * 10 + digitVal d) 0
      let v : Int := if signed.1 then -(n : Int) else (n : Int)
      if -(2 ^ 63) ≤ v ∧ v ≤ 2 ^ 63 - 1 then some v else none
    else none

/-- `MAX_RESPONSES` handling: unset (empty) environment value defaults to
20; otherwise `strconv.Atoi`, whose failure is `log.Fatalf` (`none`).
No further validation — any parsed integer, negative included, is kept. -/
def initMaxResponses (env : String) : Option Int :=
  if env = "" then some 20 else goAtoi env

/-! # Theorems -/

/-! ## Store lemmas -/

theorem snapshot_eq_self (st : List ProcessingResponse) : snapshot st = st :=
  List.ofFn_get st

theorem length_trimTo (N : Nat) (l : List ProcessingResponse) :
    (trimTo N l).length = min N l.length := by
  simp only [trimTo, List.length_drop]
  omega

theorem appendResponse_eq_trimTo (N : Nat) (st : List ProcessingResponse)
    (r : ProcessingResponse) : appendResponse N st r = trimTo N (st ++ [r]) := by
  simp only [appendResponse, trimTo]
  by_cases h : (st ++ [r]).length > N
  · simp only [if_pos h]
  · simp only [if_neg h]
    have h0 : (st ++ [r]).length - N = 0 := by omega
    rw [h0, List.drop_zero]

theorem trimTo_append (N : Nat) (l rs : List ProcessingResponse) :
    trimTo N (trimTo N l ++ rs) = trimTo N (l ++ rs) := by
  have hk : l.length - N ≤ l.length := Nat.sub_le _ _
  have h1 : trimTo N l ++ rs = (l ++ rs).drop (l.length - N) := by
    rw [trimTo, List.drop_append_of_le_length hk]
  rw [trimTo, h1, List.drop_drop, trimTo]
  congr 1
  simp only [List.length_drop, List.length_append]
  omega

theorem foldl_appendResponse (N : Nat) (rs : List ProcessingResponse) :
    ∀ st : List ProcessingResponse, st.length ≤ N →
      rs.foldl (appendResponse N) st = trimTo N (st ++ rs) := by
  induction rs with
  | nil =>
    intro st h
    simp only [List.foldl_nil, List.append_nil, trimTo]
    have h0 : st.length - N = 0 := by omega
    rw [h0, List.drop_zero]
  | cons r rs ih =>
    intro st h
    simp only [List.foldl_cons]
    rw [appendResponse_eq_trimTo]
    have hlen : (trimTo N (st ++ [r])).length ≤ N := by
      rw [length_trimTo]; omega
    rw [ih _ hlen, trimTo_append]
    simp

theorem runAppends_eq_trimTo (N : Nat) (rs : List ProcessingResponse) :
    runAppends N rs = trimTo N rs := by
  have := foldl_appendResponse N rs [] (by simp)
  simpa [runAppends] using this

/-- For `0 ≤ N` the checked append never panics and agrees with the
`Nat`-capacity model. -/
theorem appendResponseChecked_eq (N : Int) (hN : 0 ≤ N)
    (st : List ProcessingResponse) (r : ProcessingResponse) :
    appendResponseChecked N st r = some (appendResponse N.toNat st r) := by
  simp only [appendResponseChecked, appendResponse]
  by_cases h : (((st ++ [r]).length : Int) > N)
  · have h2 : (st ++ [r]).length > N.toNat := by omega
    have hb : (0 : Int) ≤ ((st ++ [r]).length : Int) - N ∧
        ((st ++ [r]).length : Int) - N ≤ ((st ++ [r]).length : Int) := by
      constructor <;> omega
    have ht : (((st ++ [r]).length : Int) - N).toNat = (st ++ [r]).length - N.toNat := by
      omega
    simp only [if_pos h, if_pos hb, if_pos h2, ht]
  · have h2 : ¬ (st ++ [r]).length > N.toNat := by omega
    simp only [if_neg h, if_neg h2]

/-! ## Decimal printing and id freshness lemmas -/

theorem digitVal_digitChar : ∀ m : Nat, m < 10 → digitVal (Nat.digitChar m) = m := by
  decide

theorem decodeDigits_append (cs ds : List Char) :
    decodeDigits (cs ++ ds) =
      ds.foldl (fun a c => a * 10 + digitVal c) (decodeDigits cs) := by
  simp [decodeDigits, List.foldl_append]

theorem decodeDigits_natDecAux :
    ∀ fuel n : Nat, n < fuel → decodeDigits (natDecAux fuel n) = n := by
  intro fuel
  induction fuel with
  | zero => intro n h; omega
  | succ fuel ih =>
    intro n h
    by_cases h10 : n < 10
    · simp only [natDecAux, if_pos h10]
      simp [decodeDigits, digitVal_digitChar n h10]
    · simp only [natDecAux, if_neg h10]
      rw [decodeDigits_append]
      have hdiv : n / 10 < fuel := by omega
      rw [ih (n / 10) hdiv]
      simp only [List.foldl_cons, List.foldl_nil,
        digitVal_digitChar (n % 10) (by omega)]
      omega

theorem natDecimal_inj (m n : Nat) (h : natDecimal m = natDecimal n) : m = n := by
  have hm := decodeDigits_natDecAux (m + 1) m (Nat.lt_succ_self m)
  have hn := decodeDigits_natDecAux (n + 1) n (Nat.lt_succ_self n)
  have hl : natDecAux (m + 1) m = natDecAux (n + 1) n := by
    have hd := congrArg String.data h
    simpa [natDecimal] using hd
  rw [hl, hn] at hm
  exact hm.symm

theorem generateSimpleID_inj (m n : Nat)
    (h : generateSimpleID m = generateSimpleID n) : m = n := by
  apply natDecimal_inj
  have hd := congrArg String.data h
  simp only [generateSimpleID, String.data_append] at hd
  exact String.ext (List.append_cancel_left hd)

/-! ## Trace lemmas -/

theorem runOps_append (N : Nat) (st : List ProcessingResponse)
    (a b : List StoreOp) :
    runOps N st (a ++ b) =
      ((runOps N (runOps N st a).1 b).1,
        (runOps N st a).2 ++ (runOps N (runOps N st a).1 b).2) := by
  induction a generalizing st with
  | nil => simp [runOps]
  | cons op ops ih =>
    cases op with
    | app r =>
      simp only [List.cons_append, runOps]
      exact ih (appendResponse N st r)
    | snap =>
      simp only [List.cons_append, runOps, List.append_eq]
      rw [ih st]

theorem length_runOps_outputs (N : Nat) (ops : List StoreOp) :
    ∀ st : List ProcessingResponse, (runOps N st ops).2.length = snapCount ops := by
  induction ops with
  | nil => intro st; simp [runOps, snapCount]
  | cons op ops ih =>
    intro st
    cases op with
    | app r => simp [runOps, snapCount, List.countP_cons, ih]
    | snap => simp [runOps, snapCount, List.countP_cons, ih]

theorem runOps_snap_output (N : Nat) (st : List ProcessingResponse)
    (ops1 ops2 : List StoreOp) :
    (runOps N st (ops1 ++ StoreOp.snap :: ops2)).2[snapCount ops1]? =
      some (snapshot (runOps N st ops1).1) := by
  rw [runOps_append]
  have hlen : (runOps N st ops1).2.length = snapCount ops1 :=
    length_runOps_outputs N ops1 st
  rw [List.getElem?_append_right (by omega)]
  simp [runOps, hlen]

/-! ## Non-emptiness of synthesized part lines -/

theorem length_pos_of_ne_empty (s : String) (h : s ≠ "") : 0 < s.length := by
  cases s with
  | mk data =>
    cases data with
    | nil => exact absurd rfl h
    | cons c cs => simp

theorem intercalate_go_length (s : String) :
    ∀ (as : List String) (acc : String),
      acc.length ≤ (String.intercalate.go acc s as).length := by
  intro as
  induction as with
  | nil => intro acc; exact Nat.le_refl acc.length
  | cons a as ih =>
    intro acc
    have h1 : acc.length ≤ (acc ++ s ++ a).length := by
      simp only [String.length_append]; omega
    have h3 : String.intercalate.go acc s (a :: as) =
        String.intercalate.go (acc ++ s ++ a) s as := rfl
    rw [h3]
    exact le_trans h1 (ih (acc ++ s ++ a))

theorem intercalate_cons_ne_empty (p : String) (rest : List String)
    (hp : p ≠ "") : String.intercalate ("\n") (p :: rest) ≠ "" := by
  intro contra
  have h1 : 0 < p.length := length_pos_of_ne_empty p hp
  have h2 : p.length ≤ (String.intercalate ("\n") (p :: rest)).length := by
    rw [String.intercalate]
    exact intercalate_go_length ("\n") rest p
  rw [contra] at h2
  simp at h2
  omega

theorem renderValue_ne_empty (k : String) (v : JsonVal) (p : String)
    (h : renderValue k v = some p) : p ≠ "" := by
  have len2 : (": " : String).length = 2 := rfl
  have hlen : 2 ≤ p.length := by
    cases v with
    | str s =>
      simp only [renderValue] at h
      by_cases hs : s = ""
      · rw [if_pos hs] at h; simp at h
      · rw [if_neg hs] at h
        simp only [Option.some.injEq] at h
        subst h
        simp only [String.length_append, len2]
        omega
    | num q =>
      simp only [renderValue, Option.some.injEq] at h
      subst h
      simp only [String.length_append, len2]
      omega
    | bool b =>
      simp only [renderValue, Option.some.injEq] at h
      subst h
      simp only [String.length_append, len2]
      omega
    | obj fs =>
      simp only [renderValue, Option.some.injEq] at h
      subst h
      simp only [String.length_append, len2]
      omega
    | arr es =>
      simp only [renderValue, Option.some.injEq] at h
      subst h
      simp only [String.length_append, len2]
      omega
    | null =>
      simp only [renderValue, Option.some.injEq] at h
      subst h
      have len7 : (": <nil>" : String).length = 7 := rfl
      simp only [String.length_append, len7]
      omega
  intro contra
  rw [contra] at hlen
  simp at hlen

/-! ## Source-vs-spec rendering agreement -/

theorem renderValue_eq_spec (k : String) (v : JsonVal) :
    renderValue k v = (specStringify v).map (fun s => k ++ ": " ++ s) := by
  cases v with
  | str s =>
    simp only [renderValue, specStringify]
    by_cases hs : s = ""
    · rw [if_pos hs, if_pos hs]; rfl
    · rw [if_neg hs, if_neg hs]; rfl
  | num q => rfl
  | bool b => rfl
  | obj fs => rfl
  | arr es => rfl
  | null =>
    show some (k ++ ": <nil>") = some (k ++ ": " ++ "<nil>")
    have hx : (": " ++ "<nil>" : String) = ": <nil>" := by decide
    rw [String.append_assoc, hx]

theorem buildParts_eq_specLines (o : JObj) : buildParts o = specSynthesizedLines o := by
  induction o with
  | nil => rfl
  | cons kv o ih =>
    simp only [buildParts, List.filterMap_cons] at ih ⊢
    simp only [specSynthesizedLines, List.filter_cons] at ih ⊢
    by_cases he : kv.1 ∈ excludeFields
    · have hd : decide (kv.1 ∉ excludeFields) = false := by simp [he]
      rw [if_pos he, hd]
      simpa using ih
    · have hd : decide (kv.1 ∉ excludeFields) = true := by simp [he]
      rw [if_neg he, hd, renderValue_eq_spec]
      cases hsv : specStringify kv.2 with
      | none => simpa [hsv, List.filterMap_cons] using ih
      | some s => simpa [hsv, List.filterMap_cons] using ih

/-! # Claim theorems -/

/-- C1: for every capacity N ≥ 1, after a sequence of N+1 appends on the
initially empty store, the snapshot has length exactly N and holds the N
most-recently-appended records in arrival order — the input sequence with
its first (oldest) record absent. -/
theorem c1_window_after_overflow (N : Nat) (rs : List ProcessingResponse)
    (hN : 1 ≤ N) (hlen : rs.length = N + 1) :
    (snapshot (runAppends N rs)).length = N ∧
    snapshot (runAppends N rs) = rs.drop 1 := by
  rw [snapshot_eq_self, runAppends_eq_trimTo]
  constructor
  · rw [length_trimTo]; omega
  · rw [trimTo]
    congr 1
    omega

theorem c1_window_after_overflow_witness :
    (snapshot (runAppends 2 [⟨"res_1", "a", 1, "completed"⟩,
        ⟨"res_2", "b", 2, "completed"⟩, ⟨"res_3", "c", 3, "completed"⟩])).length = 2 ∧
    snapshot (runAppends 2 [⟨"res_1", "a", 1, "completed"⟩,
        ⟨"res_2", "b", 2, "completed"⟩, ⟨"res_3", "c", 3, "completed"⟩]) =
      [⟨"res_2", "b", 2, "completed"⟩, ⟨"res_3", "c", 3, "completed"⟩] :=
  c1_window_after_overflow 2 _ (by decide) (by decide)

/-- C2: a completed append (one the Go slice expression does not panic on)
always leaves the store with length at most the capacity N, restores
length = N exactly when the append would exceed it, and the snapshot of
the resulting state is never longer than N. -/
theorem c2_capacity_invariant (N : Int) (st st2 : List ProcessingResponse)
    (r : ProcessingResponse)
    (h : appendResponseChecked N st r = some st2) :
    (st2.length : Int) ≤ N ∧
    ((N : Int) < (st.length : Int) + 1 → (st2.length : Int) = N) ∧
    ((snapshot st2).length : Int) ≤ N := by
  rw [snapshot_eq_self]
  have hL : (st ++ [r]).length = st.length + 1 := by simp
  simp only [appendResponseChecked] at h
  by_cases hc : (((st ++ [r]).length : Int) > N)
  · rw [if_pos hc] at h
    by_cases hb : ((0 : Int) ≤ ((st ++ [r]).length : Int) - N ∧
        ((st ++ [r]).length : Int) - N ≤ ((st ++ [r]).length : Int))
    · rw [if_pos hb] at h
      simp only [Option.some.injEq] at h
      subst h
      simp only [List.length_drop]
      refine ⟨by omega, fun hlt => by omega, by omega⟩
    · rw [if_neg hb] at h
      simp at h
  · rw [if_neg hc] at h
    simp only [Option.some.injEq] at h
    subst h
    refine ⟨by omega, fun hlt => by omega, by omega⟩

theorem c2_capacity_invariant_witness :
    ((([⟨"res_2", "b", 2, "completed"⟩, ⟨"res_3", "c", 3, "completed"⟩] :
        List ProcessingResponse).length : Int) ≤ 2 ∧
      ((2 : Int) < (([⟨"res_1", "a", 1, "completed"⟩,
          ⟨"res_2", "b", 2, "completed"⟩] : List ProcessingResponse).length : Int) + 1 →
        ((([⟨"res_2", "b", 2, "completed"⟩, ⟨"res_3", "c", 3, "completed"⟩] :
          List ProcessingResponse).length : Int) = 2)) ∧
      (((snapshot [⟨"res_2", "b", 2, "completed"⟩,
          ⟨"res_3", "c", 3, "completed"⟩]).length : Int) ≤ 2)) :=
  c2_capacity_invariant 2 [⟨"res_1", "a", 1, "completed"⟩, ⟨"res_2", "b", 2, "completed"⟩]
    [⟨"res_2", "b", 2, "completed"⟩, ⟨"res_3", "c", 3, "completed"⟩]
    ⟨"res_3", "c", 3, "completed"⟩ (by decide)

/-- C3: a decoded payload whose `text` key holds a non-empty string stores
that string verbatim; when `text` is absent, empty, or not a string, a
non-empty string `message` is stored instead (`text` has priority). -/
theorem c3_text_priority (body : String) (o : JObj) (idN tsN : Nat) (s : String) :
    (mapGet o ("text") = some (JsonVal.str s) → s ≠ "" →
      (mkRecord body (some o) idN tsN).text = s) ∧
    (nonEmptyString (mapGet o ("text")) = none →
      mapGet o ("message") = some (JsonVal.str s) → s ≠ "" →
      (mkRecord body (some o) idN tsN).text = s) := by
  constructor
  · intro h hs
    simp [mkRecord, finalText, normalizeText, responseTextOf, h, nonEmptyString, hs]
  · intro h0 h hs
    have h2 : nonEmptyString (mapGet o ("message")) = some s := by
      rw [h]
      simp [nonEmptyString, hs]
    simp [mkRecord, finalText, normalizeText, responseTextOf, h0, h2, hs]

theorem c3_text_priority_witness :
    (mkRecord ("b") (some [(("text" : String), JsonVal.str ("hi")),
        (("message" : String), JsonVal.str ("mm"))]) 1 2).text = "hi" ∧
    (mkRecord ("b") (some [(("message" : String), JsonVal.str ("mm"))]) 1 2).text = "mm" :=
  ⟨(c3_text_priority ("b") _ 1 2 ("hi")).1 rfl (by decide),
    (c3_text_priority ("b") _ 1 2 ("mm")).2 rfl rfl (by decide)⟩

/-- C4 counterexample: the decoded payload with the single non-excluded
field `a` bound to the empty string.  The claim demands one line per
non-excluded field, i.e. the generated text "a: "; the code skips
empty-string fields, generates no line at all, and stores the placeholder
instead. -/
theorem c4_counterexample :
    buildParts [(("a" : String), JsonVal.str (""))] = [] ∧
    (mkRecord ("x") (some [(("a" : String), JsonVal.str (""))]) 0 0).text =
      placeholderText ∧
    placeholderText ≠ "a: " ∧ ¬ (("a" : String) ∈ excludeFields) :=
  ⟨rfl, rfl, by decide, by decide⟩

/-- C4 (amended): for a decoded payload with no usable `text`/`message`,
the synthesized lines are exactly the spec's "<key>: <value>" lines over
the non-excluded fields — except that fields whose value is the empty
string are skipped — and the stored text is their newline-join when at
least one line exists, the placeholder otherwise.  Value rendering:
numbers in fixed 2-decimal form, booleans as true/false, nested
objects/arrays as their canonical JSON text, null as its default textual
form. -/
theorem c4_synthesized_text (body : String) (o : JObj) (idN tsN : Nat)
    (ht : nonEmptyString (mapGet o ("text")) = none)
    (hm : nonEmptyString (mapGet o ("message")) = none) :
    buildParts o = specSynthesizedLines o ∧
    (buildParts o ≠ [] →
      (mkRecord body (some o) idN tsN).text =
        String.intercalate ("\n") (specSynthesizedLines o)) ∧
    (buildParts o = [] →
      (mkRecord body (some o) idN tsN).text = placeholderText) := by
  refine ⟨buildParts_eq_specLines o, ?_, ?_⟩
  · intro hne
    obtain ⟨p, rest, hb2⟩ : ∃ p rest, buildParts o = p :: rest := by
      cases hb3 : buildParts o with
      | nil => exact absurd hb3 hne
      | cons p rest => exact ⟨p, rest, rfl⟩
    have hparts : (buildParts o).length > 0 := by rw [hb2]; simp
    have htext : responseTextOf o = String.intercalate ("\n") (buildParts o) := by
      simp only [responseTextOf, ht, hm]
      rw [if_pos hparts]
    have hp : p ≠ "" := by
      have hmem : p ∈ buildParts o := by rw [hb2]; exact List.mem_cons_self p rest
      simp only [buildParts] at hmem
      obtain ⟨kv, hkv, hr⟩ := List.mem_filterMap.mp hmem
      by_cases he : kv.1 ∈ excludeFields
      · rw [if_pos he] at hr; simp at hr
      · rw [if_neg he] at hr; exact renderValue_ne_empty kv.1 kv.2 p hr
    have hne2 : String.intercalate ("\n") (buildParts o) ≠ "" := by
      rw [hb2]; exact intercalate_cons_ne_empty p rest hp
    simp only [mkRecord, finalText, normalizeText, htext]
    rw [if_neg hne2, buildParts_eq_specLines]
  · intro hz
    have htext : responseTextOf o = "" := by
      simp [responseTextOf, ht, hm, hz]
    simp [mkRecord, finalText, normalizeText, htext]

theorem c4_synthesized_text_witness :
    (mkRecord ("z") (some [(("a" : String), JsonVal.str ("x")),
        (("status" : String), JsonVal.str ("done")),
        (("b" : String), JsonVal.bool true)]) 0 0).text = "a: x\nb: true" := by
  have h := (c4_synthesized_text ("z") [(("a" : String), JsonVal.str ("x")),
    (("status" : String), JsonVal.str ("done")),
    (("b" : String), JsonVal.bool true)] 0 0 rfl rfl).2.1 (by decide)
  rw [h]
  decide

/-- C5 counterexample: the empty payload fails structured parsing, but the
stored text is the placeholder, not the (empty) raw payload text. -/
theorem c5_counterexample :
    (mkRecord ("") none 0 0).text = placeholderText ∧ placeholderText ≠ "" :=
  ⟨rfl, by decide⟩

/-- C5 (amended): for every non-empty payload that fails structured
parsing, the stored text is the raw payload's textual form verbatim, no
structured fields are extracted, and the status defaults to "completed";
the empty payload instead receives the placeholder sentinel. -/
theorem c5_raw_fallback (body : String) (idN tsN : Nat) (hb : body ≠ "") :
    (mkRecord body none idN tsN).text = body ∧
    (mkRecord body none idN tsN).status = "completed" := by
  constructor
  · simp [mkRecord, finalText, normalizeText, hb]
  · rfl

theorem c5_raw_fallback_witness :
    (mkRecord ("Hello") none 0 0).text = "Hello" ∧
    (mkRecord ("Hello") none 0 0).status = "completed" :=
  c5_raw_fallback ("Hello") 0 0 (by decide)

/-- C6: normalization is total — every payload, the empty one included,
yields a record whose text is never the empty string, the placeholder
sentinel being substituted exactly when all extraction branches came up
empty. -/
theorem c6_normalization_total (body : String) (parsed : Option JObj)
    (idN tsN : Nat) :
    (mkRecord body parsed idN tsN).text ≠ "" ∧
    (normalizeText body parsed = "" →
      (mkRecord body parsed idN tsN).text = placeholderText) := by
  constructor
  · simp only [mkRecord, finalText]
    by_cases h : normalizeText body parsed = ""
    · rw [if_pos h]
      decide
    · rw [if_neg h]
      exact h
  · intro h
    simp [mkRecord, finalText, h]

theorem c6_normalization_total_witness :
    (mkRecord ("") none 0 0).text ≠ "" ∧
    (mkRecord ("") none 0 0).text = placeholderText :=
  ⟨(c6_normalization_total ("") none 0 0).1, (c6_normalization_total ("") none 0 0).2 rfl⟩

/-- C7: a decoded payload's non-empty string `status` is stored verbatim;
otherwise — key absent, empty, not a string, or parsing failed — the
stored status is "completed". -/
theorem c7_status_passthrough (body : String) (o : JObj) (idN tsN : Nat)
    (s : String) :
    (mapGet o ("status") = some (JsonVal.str s) → s ≠ "" →
      (mkRecord body (some o) idN tsN).status = s) ∧
    (nonEmptyString (mapGet o ("status")) = none →
      (mkRecord body (some o) idN tsN).status = "completed") ∧
    (mkRecord body none idN tsN).status = "completed" := by
  refine ⟨?_, ?_, rfl⟩
  · intro h hs
    simp [mkRecord, normalizeStatus, h, nonEmptyString, hs]
  · intro h
    simp [mkRecord, normalizeStatus, h]

theorem c7_status_passthrough_witness :
    (mkRecord ("z") (some [(("status" : String), JsonVal.str ("error"))]) 0 0).status =
      "error" ∧
    (mkRecord ("z") (some [(("status" : String), JsonVal.str ("error"))]) 0 0).text =
      placeholderText ∧
    (mkRecord ("z") (some [(("k" : String), JsonVal.bool true)]) 0 0).status =
      "completed" :=
  ⟨(c7_status_passthrough ("z") _ 0 0 ("error")).1 rfl (by decide), rfl,
    (c7_status_passthrough ("z") [(("k" : String), JsonVal.bool true)] 0 0 ("x")).2.1 rfl⟩

/-- C8 counterexample: two ingestions whose `time.Now().UnixNano()`
readings coincide (the code does nothing to prevent this) produce two
stored records with the same id, refuting unconditional pairwise
distinctness of appended ids. -/
theorem c8_counterexample :
    ¬ ((runAppends 20 [mkRecord ("x") none 5 5, mkRecord ("y") none 5 6]).map
        (fun r => r.id)).Nodup := by decide

/-- C8 (amended): the record id is freshly generated from the ingestion
clock only — any id in the payload is ignored, two ingestions with the
same clock reading get the same id whatever their payloads — and the ids
of a run are pairwise distinct provided the nanosecond readings are
pairwise distinct, which the code itself does not guarantee. -/
theorem c8_id_freshness (ts : List Nat) (b1 b2 : String)
    (p1 p2 : Option JObj) (idN tsN1 tsN2 : Nat) (h : ts.Nodup) :
    (ts.map generateSimpleID).Nodup ∧
    (mkRecord b1 p1 idN tsN1).id = (mkRecord b2 p2 idN tsN2).id := by
  refine ⟨?_, rfl⟩
  have hinj : Function.Injective generateSimpleID := by
    intro m n hmn
    exact generateSimpleID_inj m n hmn
  exact h.map hinj

theorem c8_id_freshness_witness :
    ((([1, 2, 3] : List Nat).map generateSimpleID).Nodup) ∧
    (mkRecord ("a") none 7 7).id = (mkRecord ("b") none 7 8).id :=
  c8_id_freshness [1, 2, 3] ("a") ("b") none none 7 7 8 (by decide)

/-- C9: in any trace of appends and snapshots, a snapshot's returned
sequence is the copy of the state reached by the operations before it —
so two consecutive snapshots with no intervening append return equal
sequences (first two conjuncts), and appends occurring after a snapshot
never change what that snapshot returned (every conjunct's right-hand
side is independent of the operations after the snapshot). -/
theorem c9_snapshot_isolation (N : Nat) (st : List ProcessingResponse)
    (ops1 ops2 : List StoreOp) :
    (runOps N st (ops1 ++ StoreOp.snap :: StoreOp.snap :: ops2)).2[snapCount ops1]? =
      some (snapshot (runOps N st ops1).1) ∧
    (runOps N st (ops1 ++ StoreOp.snap :: StoreOp.snap :: ops2)).2[snapCount ops1 + 1]? =
      some (snapshot (runOps N st ops1).1) ∧
    (runOps N st (ops1 ++ StoreOp.snap :: ops2)).2[snapCount ops1]? =
      some (snapshot (runOps N st ops1).1) := by
  refine ⟨runOps_snap_output N st ops1 (StoreOp.snap :: ops2), ?_,
    runOps_snap_output N st ops1 ops2⟩
  have h1 : ops1 ++ StoreOp.snap :: StoreOp.snap :: ops2 =
      (ops1 ++ [StoreOp.snap]) ++ StoreOp.snap :: ops2 := by simp
  rw [h1]
  have h2 := runOps_snap_output N st (ops1 ++ [StoreOp.snap]) ops2
  have h3 : snapCount (ops1 ++ [StoreOp.snap]) = snapCount ops1 + 1 := by
    simp [snapCount, List.countP_append]
  have h4 : (runOps N st (ops1 ++ [StoreOp.snap])).1 = (runOps N st ops1).1 := by
    rw [runOps_append]
    simp [runOps]
  rw [h3, h4] at h2
  exact h2

/-- C10: with a non-negative capacity the eviction step's slice lower
bound is always in range (the append never panics); the configuration
loader accepts a negative capacity without validation (here `-5`), and
with such a capacity the very first append does panic — so N ≥ 0 is a
genuine precondition, not a guarantee of construction. -/
theorem c10_append_within_bounds (N : Int) (st : List ProcessingResponse)
    (r : ProcessingResponse) (hN : 0 ≤ N) :
    (appendResponseChecked N st r).isSome = true ∧
    initMaxResponses ("-5") = some (-5) ∧
    appendResponseChecked (-1) [] ⟨"res_0", "x", 0, "completed"⟩ = none := by
  refine ⟨?_, by decide, by decide⟩
  rw [appendResponseChecked_eq N hN]
  rfl

theorem c10_append_within_bounds_witness :
    (appendResponseChecked 3 [] ⟨"res_9", "y", 0, "completed"⟩).isSome = true :=
  (c10_append_within_bounds 3 [] ⟨"res_9", "y", 0, "completed"⟩ (by decide)).1

end DocReader
